import Mathlib

/-!
Verification of the `bisect` command of `now-cli`
(`packages/now-cli/src/commands/bisect/index.ts`).

The command binary-searches a project's deployment history for the first
"bad" deployment.  This file embeds the logic of `main` after the two
references have been resolved:

* the validation checks (same project, `badDeployment.createdAt <
  goodDeployment.createdAt` ordering),
* the paginated history fetch (`do … while (next)` loop with the `until`
  query parameter and the early stop when the good deployment's URL is
  found in a page),
* the bisection `while (deployments.length > 0)` loop with
  `middleIndex = Math.floor(deployments.length / 2)` and the
  `good` / `bad` / `skip` actions.

Remote state is passed in explicitly: the pagination endpoint is a function
from the optional `until` parameter to a response, and the classification
oracle is a function from a deployment to a verdict.  JavaScript truthiness
of the `next` cursor (`undefined` and `0` are both falsy) is modelled
explicitly.

The command exists in a second revision in `bin/now.js` with identical
engine logic (middle index, slicing, seeding, pagination); that revision
additionally implements the scripted oracle behind the `--run` flag
(`execa` on the test script), embedded here as `scriptVerdict`.
-/

/-- The tri-state classification of one candidate (the `action` answer of the
inquirer prompt: `good`, `bad` or `skip`). -/
inductive Verdict where
  | good
  | bad
  | skip
deriving DecidableEq, Repr

/-- One deployment record as used by the bisect logic: only `url` (compared
against the good reference and shown as the result) and `createdAt` (the
pagination timestamp) are consumed by the embedded control flow. -/
structure Deployment where
  url : String
  createdAt : Nat
deriving DecidableEq, Repr

/-- The resolved form of a user-supplied reference
(`/v10/deployments/get?url=…&resolve=1`): the `DeploymentResolve` interface
of the source. -/
structure DeploymentResolve where
  url : String
  target : String
  createdAt : Nat
  projectId : String
  ownerId : String
deriving DecidableEq, Repr

/-- The `pagination` part of a `/v6/deployments` response; `next` is the
cursor for the following page (absent when the history is exhausted). -/
structure PaginationOptions where
  next : Option Nat
deriving DecidableEq, Repr

/-- A `/v6/deployments` response: one page of deployments plus the
pagination cursor. -/
structure DeploymentsResponse where
  deployments : List Deployment
  pagination : PaginationOptions
deriving DecidableEq, Repr

/-- JavaScript truthiness of the `next` cursor: `undefined` (`none`) and the
number `0` are falsy, every other number is truthy.  Both `if (next)` and
`while (next)` in the fetch loop test exactly this. -/
def truthy : Option Nat → Bool
  | none => false
  | some n => n != 0

/-- The `until` query parameter sent with a page request: it is set exactly
when the current `next` value is truthy (`if (next) query.set('until', …)`). -/
def untilParam (next : Option Nat) : Option Nat :=
  if truthy next then next else none

/-- The scan `for (let i = 0; …) if (newDeployments[i].url === good)` with an
immediate `break`: index of the first record of the page whose `url` equals
the good reference's URL. -/
def findGoodIdx (good : String) (ds : List Deployment) : Option Nat :=
  ds.findIdx? (fun d => d.url == good)

/-- The `do { … } while (next)` history-fetch loop.  `f` is the remote
`/v6/deployments` endpoint as a function of the `until` parameter, `good`
the resolved good deployment's URL, `next` the current cursor, `reqs` the
`until` parameters sent so far and `acc` the accumulated deployments.
When the good URL appears at index `i` of a page, the page is truncated to
its first `i + 1` records and the cursor is cleared (`next = undefined`),
so no further page is requested.  The loop body is not bounded in the
source; `fuel` bounds it here and `none` is returned when it runs out. -/
def fetchLoop (f : Option Nat → DeploymentsResponse) (good : String) :
    Nat → Option Nat → List (Option Nat) → List Deployment →
    Option (List (Option Nat) × List Deployment)
  | 0, _, _, _ => none
  | fuel + 1, next, reqs, acc =>
    let u := untilParam next
    let res := f u
    let found := findGoodIdx good res.deployments
    let newDeployments :=
      match found with
      | some i => res.deployments.take (i + 1)
      | none => res.deployments
    let next2 : Option Nat :=
      match found with
      | some _ => none
      | none => res.pagination.next
    let acc2 := acc ++ newDeployments
    let reqs2 := reqs ++ [u]
    if truthy next2 then fetchLoop f good fuel next2 reqs2 acc2
    else some (reqs2, acc2)

/-- One iteration of the bisection `while` loop on the state
`(deployments, lastBad)`:
`middleIndex = Math.floor(deployments.length / 2)`;
`good` keeps `deployments.slice(0, middleIndex)`,
`bad` records the tested deployment as `lastBad` and keeps
`deployments.slice(middleIndex + 1)`, and
`skip` removes only the tested deployment
(`deployments.splice(middleIndex, 1)`, i.e. the concatenation of the two
slices around it).  On an empty window the state is returned unchanged. -/
def bisectStep (verdict : Deployment → Verdict) :
    List Deployment × Deployment → List Deployment × Deployment
  | ([], lastBad) => ([], lastBad)
  | (d :: ds, lastBad) =>
    let middleIndex := (d :: ds).length / 2
    let dep := (d :: ds).get ⟨middleIndex, Nat.div_lt_self (Nat.succ_pos _) Nat.one_lt_two⟩
    match verdict dep with
    | Verdict.good => ((d :: ds).take middleIndex, lastBad)
    | Verdict.bad => ((d :: ds).drop (middleIndex + 1), dep)
    | Verdict.skip =>
      ((d :: ds).take middleIndex ++ (d :: ds).drop (middleIndex + 1), lastBad)

/-- `fuel` iterations of `bisectStep`, stopping early on an empty window
(the `while (deployments.length > 0)` guard). -/
def bisectIter (verdict : Deployment → Verdict) :
    Nat → List Deployment × Deployment → List Deployment × Deployment
  | 0, st => st
  | fuel + 1, st =>
    match st with
    | ([], lastBad) => ([], lastBad)
    | (d :: ds, lastBad) => bisectIter verdict fuel (bisectStep verdict (d :: ds, lastBad))

/-- The bisection loop: starting from the candidate window and the seeded
`lastBad`, iterate until the window is empty and return the final `lastBad`.
Each iteration strictly shrinks the window (proved below), so
`deployments.length` iterations always reach the empty window; running
`bisectIter` with exactly that much fuel therefore computes the `while`
loop's result. -/
def bisectRun (verdict : Deployment → Verdict) (deployments : List Deployment)
    (lastBad : Deployment) : Deployment :=
  (bisectIter verdict deployments.length (deployments, lastBad)).2

/-- The deployments on which the loop solicits a verdict (the argument of
each prompt), in order: the middle element of each successive window. -/
def bisectTested (verdict : Deployment → Verdict) :
    Nat → List Deployment → List Deployment
  | 0, _ => []
  | fuel + 1, deployments =>
    match deployments with
    | [] => []
    | d :: ds =>
      let dep := (d :: ds).get
        ⟨(d :: ds).length / 2, Nat.div_lt_self (Nat.succ_pos _) Nat.one_lt_two⟩
      dep :: bisectTested verdict fuel (bisectStep verdict (d :: ds, d)).1

/-- Outcome of `main` after reference resolution, abstracting the printed
diagnostics: which fatal branch was taken, or the final `lastBad` on
success.  `fuelExhausted` is the artefact of bounding the fetch loop. -/
inductive RunOutcome where
  | projectMismatch
  | orderingViolation
  | emptyHistory
  | fuelExhausted
  | success (lastBad : Deployment)
deriving DecidableEq, Repr

/-- The process exit status of `main` for each outcome: `0` on success,
`1` on every fatal branch (as in the source, which `return 1`s). -/
def runExitCode : RunOutcome → Nat
  | RunOutcome.success _ => 0
  | _ => 1

/-- `main` from the project/ordering validation onward: the
`projectId` equality check, the `createdAt` ordering check, the paginated
fetch seeded with `next = badDeployment.createdAt + 1`, the empty-history
check, the `deployments.shift()` seeding of `lastBad`, and the bisection
loop.  Returns the outcome together with the `until` parameters of the
page requests that were issued. -/
def runAfterResolve (badD goodD : DeploymentResolve)
    (f : Option Nat → DeploymentsResponse) (verdict : Deployment → Verdict)
    (fuel : Nat) : RunOutcome × List (Option Nat) :=
  if badD.projectId ≠ goodD.projectId then (RunOutcome.projectMismatch, [])
  else if badD.createdAt < goodD.createdAt then (RunOutcome.orderingViolation, [])
  else
    match fetchLoop f goodD.url fuel (some (badD.createdAt + 1)) [] [] with
    | none => (RunOutcome.fuelExhausted, [])
    | some (reqs, []) => (RunOutcome.emptyHistory, reqs)
    | some (reqs, seed :: window) =>
      (RunOutcome.success (bisectRun verdict window seed), reqs)

/-- Result of spawning the `--run` test script once via `execa(run,
[testUrl], { reject: false, … })`: either the process ran and produced a
numeric `exitCode`, or the spawn itself failed — the source's
`proc instanceof Error && typeof proc.exitCode !== 'number'` case
("Script does not exist or is not executable"). -/
inductive SpawnResult where
  | exited (code : Int)
  | startFailure
deriving DecidableEq, Repr

/-- The fatal error of the scripted oracle: the test program could not be
spawned.  In the source this aborts the whole run with `return 1`
(after `output.prettyError(proc)`), instead of yielding any verdict. -/
inductive OracleError where
  | spawnFailure
deriving DecidableEq, Repr

/-- The scripted Classification Oracle of the `--run` handler in the
`bin/now.js` revision of the command: a spawn failure aborts the run
(fatal, distinct from every verdict); otherwise `exitCode === 0` maps to
`good`, `exitCode === 125` to `skip`, and any other exit code to `bad`. -/
def scriptVerdict : SpawnResult → Except OracleError Verdict
  | SpawnResult.startFailure => Except.error OracleError.spawnFailure
  | SpawnResult.exited code =>
    if code = 0 then Except.ok Verdict.good
    else if code = 125 then Except.ok Verdict.skip
    else Except.ok Verdict.bad

/-- Unfolding of `bisectStep` on a non-empty window. -/
theorem bisectStep_cons (verdict : Deployment → Verdict) (d : Deployment)
    (ds : List Deployment) (lastBad : Deployment) :
    bisectStep verdict (d :: ds, lastBad) =
      match verdict ((d :: ds).get ⟨(d :: ds).length / 2,
          Nat.div_lt_self (Nat.succ_pos _) Nat.one_lt_two⟩) with
      | Verdict.good => ((d :: ds).take ((d :: ds).length / 2), lastBad)
      | Verdict.bad => ((d :: ds).drop ((d :: ds).length / 2 + 1),
          (d :: ds).get ⟨(d :: ds).length / 2,
            Nat.div_lt_self (Nat.succ_pos _) Nat.one_lt_two⟩)
      | Verdict.skip => ((d :: ds).take ((d :: ds).length / 2) ++
          (d :: ds).drop ((d :: ds).length / 2 + 1), lastBad) := rfl

/-- `bisectStep` on a `good` verdict keeps the slice before the middle. -/
theorem bisectStep_good (verdict : Deployment → Verdict) (ds : List Deployment)
    (lastBad : Deployment) (hm : ds.length / 2 < ds.length)
    (hv : verdict (ds.get ⟨ds.length / 2, hm⟩) = Verdict.good) :
    bisectStep verdict (ds, lastBad) = (ds.take (ds.length / 2), lastBad) := by
  cases ds with
  | nil => simp at hm
  | cons d t => rw [bisectStep_cons, hv]

/-- `bisectStep` on a `bad` verdict records the middle element as `lastBad`
and keeps the slice after it. -/
theorem bisectStep_bad (verdict : Deployment → Verdict) (ds : List Deployment)
    (lastBad : Deployment) (hm : ds.length / 2 < ds.length)
    (hv : verdict (ds.get ⟨ds.length / 2, hm⟩) = Verdict.bad) :
    bisectStep verdict (ds, lastBad) =
      (ds.drop (ds.length / 2 + 1), ds.get ⟨ds.length / 2, hm⟩) := by
  cases ds with
  | nil => simp at hm
  | cons d t => rw [bisectStep_cons, hv]

/-- `bisectStep` on a `skip` verdict removes exactly the middle element. -/
theorem bisectStep_skip (verdict : Deployment → Verdict) (ds : List Deployment)
    (lastBad : Deployment) (hm : ds.length / 2 < ds.length)
    (hv : verdict (ds.get ⟨ds.length / 2, hm⟩) = Verdict.skip) :
    bisectStep verdict (ds, lastBad) =
      (ds.take (ds.length / 2) ++ ds.drop (ds.length / 2 + 1), lastBad) := by
  cases ds with
  | nil => simp at hm
  | cons d t => rw [bisectStep_cons, hv]

/-- Each iteration of the loop strictly shrinks the window. -/
theorem bisectStep_fst_length_lt (verdict : Deployment → Verdict) (d : Deployment)
    (ds : List Deployment) (lastBad : Deployment) :
    (bisectStep verdict (d :: ds, lastBad)).1.length < (d :: ds).length := by
  rw [bisectStep_cons]
  cases verdict ((d :: ds).get ⟨(d :: ds).length / 2,
      Nat.div_lt_self (Nat.succ_pos _) Nat.one_lt_two⟩) <;>
    simp <;> omega

/-- The new window only contains deployments of the old window. -/
theorem bisectStep_fst_subset (verdict : Deployment → Verdict) (ds : List Deployment)
    (lastBad : Deployment) : (bisectStep verdict (ds, lastBad)).1 ⊆ ds := by
  cases ds with
  | nil => simp [bisectStep]
  | cons d t =>
    cases hv : verdict ((d :: t).get ⟨(d :: t).length / 2,
        Nat.div_lt_self (Nat.succ_pos _) Nat.one_lt_two⟩) <;>
      simp only [bisectStep_cons, hv]
    · exact List.take_subset _ _
    · exact List.drop_subset _ _
    · intro x hx
      rcases List.mem_append.mp hx with h | h
      · exact List.take_subset _ _ h
      · exact List.drop_subset _ _ h

/-- The new window does not depend on the current `lastBad`. -/
theorem bisectStep_fst_indep (verdict : Deployment → Verdict) (ds : List Deployment)
    (s1 s2 : Deployment) :
    (bisectStep verdict (ds, s1)).1 = (bisectStep verdict (ds, s2)).1 := by
  cases ds with
  | nil => rfl
  | cons d t =>
    rw [bisectStep_cons verdict d t s1, bisectStep_cons verdict d t s2]
    cases verdict ((d :: t).get ⟨(d :: t).length / 2,
        Nat.div_lt_self (Nat.succ_pos _) Nat.one_lt_two⟩) <;> rfl

/-- With fuel at least the window length, the iterated loop empties the
window: the `while` guard is reached with `deployments.length === 0`. -/
theorem bisectIter_fst_eq_nil (verdict : Deployment → Verdict) :
    ∀ (fuel : Nat) (ds : List Deployment) (s : Deployment),
      ds.length ≤ fuel → (bisectIter verdict fuel (ds, s)).1 = [] := by
  intro fuel
  induction fuel with
  | zero =>
    intro ds s h
    cases ds with
    | nil => rfl
    | cons d t => simp at h
  | succ fuel ih =>
    intro ds s h
    cases ds with
    | nil => rfl
    | cons d t =>
      have hlt := bisectStep_fst_length_lt verdict d t s
      rcases hp : bisectStep verdict (d :: t, s) with ⟨l2, s2⟩
      have : (bisectIter verdict (fuel + 1) (d :: t, s)) =
          bisectIter verdict fuel (l2, s2) := by
        simp [bisectIter, hp]
      rw [this]
      apply ih
      rw [hp] at hlt
      simpa using Nat.lt_succ_iff.mp (Nat.lt_of_lt_of_le hlt h)

/-- Dropping fewer elements than the length preserves the last element. -/
theorem getLast?_drop_of_lt {α : Type} :
    ∀ (l : List α) (k : Nat), k < l.length → (l.drop k).getLast? = l.getLast? := by
  intro l
  induction l with
  | nil => intro k hk; simp at hk
  | cons x xs ih =>
    intro k hk
    cases k with
    | zero => rfl
    | succ j =>
      have hj : j < xs.length := by simpa using hk
      have hxs : xs ≠ [] := by
        cases xs with
        | nil => simp at hj
        | cons y ys => simp
      cases xs with
      | nil => simp at hj
      | cons y ys =>
        calc ((x :: y :: ys).drop (j + 1)).getLast? = ((y :: ys).drop j).getLast? := rfl
          _ = (y :: ys).getLast? := ih j hj
          _ = (x :: y :: ys).getLast? := (List.getLast?_cons_cons).symm

/-- If every verdict is `skip`, the loop never updates `lastBad`. -/
theorem bisectIter_all_skip (verdict : Deployment → Verdict) :
    ∀ (fuel : Nat) (ds : List Deployment) (s : Deployment),
      (∀ x ∈ ds, verdict x = Verdict.skip) →
      (bisectIter verdict fuel (ds, s)).2 = s := by
  intro fuel
  induction fuel with
  | zero => intro ds s _; rfl
  | succ fuel ih =>
    intro ds s h
    cases ds with
    | nil => rfl
    | cons d t =>
      have hm : (d :: t).length / 2 < (d :: t).length :=
        Nat.div_lt_self (Nat.succ_pos _) Nat.one_lt_two
      have hv := h _ (List.get_mem (d :: t) _ hm)
      have hred : bisectIter verdict (fuel + 1) (d :: t, s) =
          bisectIter verdict fuel (bisectStep verdict (d :: t, s)) := rfl
      rw [hred, bisectStep_skip verdict (d :: t) s hm hv]
      refine ih _ s (fun x hx => h x ?_)
      rcases List.mem_append.mp hx with h1 | h1
      · exact List.take_subset _ _ h1
      · exact List.drop_subset _ _ h1

/-- Everything the loop asks a verdict for lies in the initial window. -/
theorem bisectTested_subset (verdict : Deployment → Verdict) :
    ∀ (fuel : Nat) (ds : List Deployment), bisectTested verdict fuel ds ⊆ ds := by
  intro fuel
  induction fuel with
  | zero => intro ds x hx; simp [bisectTested] at hx
  | succ fuel ih =>
    intro ds x hx
    cases ds with
    | nil => simp [bisectTested] at hx
    | cons d t =>
      simp only [bisectTested] at hx
      rcases List.mem_cons.mp hx with h1 | h1
      · subst h1; exact List.get_mem _ _ _
      · exact bisectStep_fst_subset verdict (d :: t) d (ih _ h1)

/-- One unfolding of `bisectIter` on a non-empty window. -/
theorem bisectIter_succ_of_ne_nil (verdict : Deployment → Verdict) (fuel : Nat)
    (ds : List Deployment) (s : Deployment) (h : ds ≠ []) :
    bisectIter verdict (fuel + 1) (ds, s) =
      bisectIter verdict fuel (bisectStep verdict (ds, s)) := by
  cases ds with
  | nil => exact absurd rfl h
  | cons d t => rfl

/-- Main loop invariant: on a window that decomposes as a block of
deployments the oracle calls `bad` followed by a block it calls `good`
(newest-first, so the `bad` block is the newer one), the loop returns the
last element of the `bad` block, or the seeded `lastBad` when that block is
empty. -/
theorem bisectIter_spine (verdict : Deployment → Verdict) :
    ∀ (fuel : Nat) (b g : List Deployment) (seed : Deployment),
      (b ++ g).length ≤ fuel →
      (∀ x ∈ b, verdict x = Verdict.bad) →
      (∀ x ∈ g, verdict x = Verdict.good) →
      (bisectIter verdict fuel (b ++ g, seed)).2 = (b.getLast?).getD seed := by
  intro fuel
  induction fuel with
  | zero =>
    intro b g seed h hb hg
    have hbg : b ++ g = [] := List.length_eq_zero.mp (Nat.le_zero.mp h)
    rcases List.append_eq_nil.mp hbg with ⟨hb0, hg0⟩
    subst hb0; subst hg0
    rfl
  | succ fuel ih =>
    intro b g seed h hb hg
    by_cases hnil : b ++ g = []
    · rcases List.append_eq_nil.mp hnil with ⟨hb0, hg0⟩
      subst hb0; subst hg0
      rfl
    · have hn : 0 < (b ++ g).length := List.length_pos.mpr hnil
      have hm : (b ++ g).length / 2 < (b ++ g).length :=
        Nat.div_lt_self hn Nat.one_lt_two
      have hred := bisectIter_succ_of_ne_nil verdict fuel (b ++ g) seed hnil
      rcases Nat.lt_or_ge ((b ++ g).length / 2) b.length with hlt | hge
      · -- the middle element lies in the bad block
        have hdep : (b ++ g).get ⟨(b ++ g).length / 2, hm⟩ =
            b.get ⟨(b ++ g).length / 2, hlt⟩ := by
          simp only [List.get_eq_getElem]
          exact List.getElem_append_left hlt
        have hv : verdict ((b ++ g).get ⟨(b ++ g).length / 2, hm⟩) = Verdict.bad := by
          rw [hdep]; exact hb _ (List.get_mem _ _ _)
        rw [hred, bisectStep_bad verdict (b ++ g) seed hm hv]
        have hdrop : (b ++ g).drop ((b ++ g).length / 2 + 1) =
            b.drop ((b ++ g).length / 2 + 1) ++ g := by
          rw [List.drop_append_eq_append_drop]
          have : (b ++ g).length / 2 + 1 - b.length = 0 := by omega
          rw [this, List.drop_zero]
        rw [hdrop]
        have hlen : (b.drop ((b ++ g).length / 2 + 1) ++ g).length ≤ fuel := by
          rw [← hdrop]
          simp only [List.length_drop]
          simp only [List.length_append] at h ⊢
          omega
        rw [ih _ _ _ hlen
          (fun x hx => hb x (List.drop_subset _ _ hx)) hg]
        rcases Nat.lt_or_ge ((b ++ g).length / 2 + 1) b.length with hlt2 | hge2
        · -- the bad block is still non-empty afterwards: same last element
          rw [getLast?_drop_of_lt b _ hlt2]
          have hbne : b ≠ [] := by intro h0; rw [h0] at hlt; simp at hlt
          rw [List.getLast?_eq_getLast b hbne]
          rfl
        · -- the middle element was the last of the bad block
          have hmid : (b ++ g).length / 2 = b.length - 1 := by omega
          have hnil : b.drop ((b ++ g).length / 2 + 1) = [] := by
            apply List.drop_eq_nil_of_le
            omega
          rw [hnil]
          have hbne : b ≠ [] := by intro h0; rw [h0] at hlt; simp at hlt
          rw [hdep]
          rw [List.getLast?_eq_getLast b hbne]
          simp only [Option.getD_some, List.getLast?_nil, Option.getD_none]
          rw [List.getLast_eq_getElem]
          simp only [List.get_eq_getElem]
          congr 1
      · -- the middle element lies in the good block
        have hglen : (b ++ g).length / 2 - b.length < g.length := by
          have h1 : (b ++ g).length = b.length + g.length := List.length_append b g
          omega
        have hdep : (b ++ g).get ⟨(b ++ g).length / 2, hm⟩ =
            g.get ⟨(b ++ g).length / 2 - b.length, hglen⟩ := by
          simp only [List.get_eq_getElem]
          exact List.getElem_append_right hge
        have hv : verdict ((b ++ g).get ⟨(b ++ g).length / 2, hm⟩) = Verdict.good := by
          rw [hdep]; exact hg _ (List.get_mem _ _ _)
        rw [hred, bisectStep_good verdict (b ++ g) seed hm hv]
        have htake : (b ++ g).take ((b ++ g).length / 2) =
            b ++ g.take ((b ++ g).length / 2 - b.length) := by
          rw [List.take_append_eq_append_take]
          congr 1
          exact List.take_of_length_le hge
        rw [htake]
        have hlen : (b ++ g.take ((b ++ g).length / 2 - b.length)).length ≤ fuel := by
          rw [← htake]
          simp only [List.length_take]
          simp only [List.length_append] at h ⊢
          omega
        exact ih _ _ _ hlen hb
          (fun x hx => hg x (List.take_subset _ _ hx))

/-- When the good URL occurs in the fetched page (first occurrence at `i`),
the loop truncates the page after that record, requests nothing further and
returns. -/
theorem fetchLoop_found_stop (f : Option Nat → DeploymentsResponse) (good : String)
    (fuel : Nat) (next : Option Nat) (reqs : List (Option Nat)) (acc : List Deployment)
    (i : Nat) (hfind : findGoodIdx good (f (untilParam next)).deployments = some i) :
    fetchLoop f good (fuel + 1) next reqs acc =
      some (reqs ++ [untilParam next],
        acc ++ (f (untilParam next)).deployments.take (i + 1)) := by
  simp only [fetchLoop, hfind]
  simp [truthy]

/-- When the good URL is absent from the page and the returned cursor is
truthy, the loop continues with that cursor and the whole page accumulated. -/
theorem fetchLoop_continue (f : Option Nat → DeploymentsResponse) (good : String)
    (fuel : Nat) (next : Option Nat) (reqs : List (Option Nat)) (acc : List Deployment)
    (hfind : findGoodIdx good (f (untilParam next)).deployments = none)
    (ht : truthy (f (untilParam next)).pagination.next = true) :
    fetchLoop f good (fuel + 1) next reqs acc =
      fetchLoop f good fuel (f (untilParam next)).pagination.next
        (reqs ++ [untilParam next]) (acc ++ (f (untilParam next)).deployments) := by
  simp only [fetchLoop, hfind, ht]
  simp

/-- When the good URL is absent and the returned cursor is falsy, the loop
returns with the whole page accumulated. -/
theorem fetchLoop_last_page (f : Option Nat → DeploymentsResponse) (good : String)
    (fuel : Nat) (next : Option Nat) (reqs : List (Option Nat)) (acc : List Deployment)
    (hfind : findGoodIdx good (f (untilParam next)).deployments = none)
    (ht : truthy (f (untilParam next)).pagination.next = false) :
    fetchLoop f good (fuel + 1) next reqs acc =
      some (reqs ++ [untilParam next], acc ++ (f (untilParam next)).deployments) := by
  simp only [fetchLoop, hfind, ht]
  simp

/-- Whatever the loop has accumulated is a prefix of what it returns. -/
theorem fetchLoop_acc_prefix (f : Option Nat → DeploymentsResponse) (good : String) :
    ∀ (fuel : Nat) (next : Option Nat) (reqs : List (Option Nat)) (acc : List Deployment)
      (r : List (Option Nat) × List Deployment),
      fetchLoop f good fuel next reqs acc = some r →
      ∃ tail, r.2 = acc ++ tail := by
  intro fuel
  induction fuel with
  | zero => intro next reqs acc r hrun; simp [fetchLoop] at hrun
  | succ fuel ih =>
    intro next reqs acc r hrun
    simp only [fetchLoop] at hrun
    split at hrun
    · rcases ih _ _ _ _ hrun with ⟨tail, htail⟩
      exact ⟨_, by rw [htail, List.append_assoc]⟩
    · exact ⟨_, by rw [← Option.some.inj hrun]⟩

/-- C1: for every candidate window (newest-first) with a single true
good-to-bad boundary at index `k` — the oracle consistently answers `bad`
on indices `0..k` and `good` on indices `k+1..end`, never `skip` — the
bisection loop terminates with `lastConfirmedBad` equal to the record at
index `k`. -/
theorem c1_single_boundary (verdict : Deployment → Verdict) (ws : List Deployment)
    (seed : Deployment) (k : Nat) (hk : k < ws.length)
    (hbad : ∀ i (h : i < ws.length), i ≤ k → verdict (ws.get ⟨i, h⟩) = Verdict.bad)
    (hgood : ∀ i (h : i < ws.length), k < i → verdict (ws.get ⟨i, h⟩) = Verdict.good) :
    bisectRun verdict ws seed = ws.get ⟨k, hk⟩ := by
  have hb : ∀ x ∈ ws.take (k + 1), verdict x = Verdict.bad := by
    intro x hx
    rcases List.mem_take_iff_getElem.mp hx with ⟨i, hi, hxe⟩
    have hi2 : i < ws.length := by omega
    have hvx := hbad i hi2 (by omega)
    rw [← hxe]
    simpa [List.get_eq_getElem] using hvx
  have hg : ∀ x ∈ ws.drop (k + 1), verdict x = Verdict.good := by
    intro x hx
    rcases List.mem_drop_iff_getElem.mp hx with ⟨i, hi, hxe⟩
    have hi2 : (k + 1) + i < ws.length := by omega
    have hvx := hgood ((k + 1) + i) hi2 (by omega)
    rw [← hxe]
    simpa [List.get_eq_getElem] using hvx
  have hfuel : (ws.take (k + 1) ++ ws.drop (k + 1)).length ≤ ws.length := by
    rw [List.take_append_drop]
  have hspine := bisectIter_spine verdict ws.length
    (ws.take (k + 1)) (ws.drop (k + 1)) seed hfuel hb hg
  rw [List.take_append_drop] at hspine
  unfold bisectRun
  rw [hspine]
  have hblen : (ws.take (k + 1)).length = k + 1 := by
    simp only [List.length_take]
    omega
  rw [List.getLast?_eq_getElem?, hblen]
  simp only [Nat.add_sub_cancel]
  rw [List.getElem?_take_of_lt (by omega), List.getElem?_eq_getElem hk]
  simp [List.get_eq_getElem]

/-- Witness for C1: threshold oracle on a three-element window with the
boundary at index 1. -/
theorem c1_single_boundary_witness :
    bisectRun (fun d => if 20 ≤ d.createdAt then Verdict.bad else Verdict.good)
      [⟨"a", 30⟩, ⟨"b", 20⟩, ⟨"c", 10⟩] ⟨"seed", 40⟩ =
      ([⟨"a", 30⟩, ⟨"b", 20⟩, ⟨"c", 10⟩] : List Deployment).get ⟨1, by decide⟩ :=
  c1_single_boundary (fun d => if 20 ≤ d.createdAt then Verdict.bad else Verdict.good)
    [⟨"a", 30⟩, ⟨"b", 20⟩, ⟨"c", 10⟩] ⟨"seed", 40⟩ 1 (by decide)
    (by decide) (by decide)

/-- C2 as stated is false at a three-element window whose middle element is
classified `good`: the claim predicts the new window `window.drop (mid + 1)
= [d2]`, but the code computes `deployments.slice(0, middleIndex) = [d0]`.
(The claim has the two slicing directions swapped.) -/
theorem c2_counterexample :
    (bisectStep (fun _ => Verdict.good)
        ([⟨"d0", 30⟩, ⟨"d1", 20⟩, ⟨"d2", 10⟩], ⟨"seed", 40⟩)).1 = [⟨"d0", 30⟩] ∧
    ([⟨"d0", 30⟩] : List Deployment) ≠
      ([⟨"d0", 30⟩, ⟨"d1", 20⟩, ⟨"d2", 10⟩] : List Deployment).drop (3 / 2 + 1) := by
  constructor
  · rfl
  · decide

/-- C2 amended: each step selects `mid = floor(n / 2)`; a `good` verdict
produces the new window `window[0 .. mid-1]` (the newer half), and a `bad`
verdict sets `lastConfirmedBad` to `window[mid]` and produces the new
window `window[mid+1 .. end]` (the older half); a `skip` verdict removes
only `window[mid]`. -/
theorem c2_step_amended (verdict : Deployment → Verdict) (ds : List Deployment)
    (lastBad : Deployment) (hm : ds.length / 2 < ds.length) :
    (verdict (ds.get ⟨ds.length / 2, hm⟩) = Verdict.good →
      bisectStep verdict (ds, lastBad) = (ds.take (ds.length / 2), lastBad)) ∧
    (verdict (ds.get ⟨ds.length / 2, hm⟩) = Verdict.bad →
      bisectStep verdict (ds, lastBad) =
        (ds.drop (ds.length / 2 + 1), ds.get ⟨ds.length / 2, hm⟩)) ∧
    (verdict (ds.get ⟨ds.length / 2, hm⟩) = Verdict.skip →
      bisectStep verdict (ds, lastBad) =
        (ds.take (ds.length / 2) ++ ds.drop (ds.length / 2 + 1), lastBad)) :=
  ⟨bisectStep_good verdict ds lastBad hm,
   bisectStep_bad verdict ds lastBad hm,
   bisectStep_skip verdict ds lastBad hm⟩

/-- Witness for the amended C2: concrete `good` and `bad` steps. -/
theorem c2_step_amended_witness :
    bisectStep (fun _ => Verdict.good)
        ([⟨"d0", 30⟩, ⟨"d1", 20⟩, ⟨"d2", 10⟩], ⟨"seed", 40⟩) =
      (([⟨"d0", 30⟩, ⟨"d1", 20⟩, ⟨"d2", 10⟩] : List Deployment).take (3 / 2),
        ⟨"seed", 40⟩) ∧
    bisectStep (fun _ => Verdict.bad)
        ([⟨"d0", 30⟩, ⟨"d1", 20⟩, ⟨"d2", 10⟩], ⟨"seed", 40⟩) =
      (([⟨"d0", 30⟩, ⟨"d1", 20⟩, ⟨"d2", 10⟩] : List Deployment).drop (3 / 2 + 1),
        ([⟨"d0", 30⟩, ⟨"d1", 20⟩, ⟨"d2", 10⟩] : List Deployment).get ⟨3 / 2, by decide⟩) :=
  ⟨(c2_step_amended (fun _ => Verdict.good)
      [⟨"d0", 30⟩, ⟨"d1", 20⟩, ⟨"d2", 10⟩] ⟨"seed", 40⟩ (by decide)).1 (by decide),
   (c2_step_amended (fun _ => Verdict.bad)
      [⟨"d0", 30⟩, ⟨"d1", 20⟩, ⟨"d2", 10⟩] ⟨"seed", 40⟩ (by decide)).2.1 (by decide)⟩

/-- C4: if the resolved good record occurs in a fetched page (first
occurrence at index `i`), the accumulated list is truncated immediately
after that record (the good record itself kept), no further page is
requested, and — when the page is sorted newest-first and everything
accumulated so far is no older than the good record — every record older
than the good record is excluded from the candidate list. -/
theorem c4_good_truncates (f : Option Nat → DeploymentsResponse) (goodUrl : String)
    (goodCreated : Nat) (fuel : Nat) (next : Option Nat) (reqs : List (Option Nat))
    (acc : List Deployment) (i : Nat)
    (hfind : findGoodIdx goodUrl (f (untilParam next)).deployments = some i)
    (hsorted : (f (untilParam next)).deployments.Pairwise
      (fun a b => b.createdAt ≤ a.createdAt))
    (hi : i < (f (untilParam next)).deployments.length)
    (hgc : (((f (untilParam next)).deployments.get ⟨i, hi⟩)).createdAt = goodCreated)
    (hacc : ∀ d ∈ acc, goodCreated ≤ d.createdAt) :
    fetchLoop f goodUrl (fuel + 1) next reqs acc =
      some (reqs ++ [untilParam next],
        acc ++ (f (untilParam next)).deployments.take (i + 1)) ∧
    ∀ d ∈ acc ++ (f (untilParam next)).deployments.take (i + 1),
      goodCreated ≤ d.createdAt := by
  refine ⟨fetchLoop_found_stop f goodUrl fuel next reqs acc i hfind, ?_⟩
  intro d hd
  rcases List.mem_append.mp hd with h1 | h1
  · exact hacc d h1
  · rcases List.mem_take_iff_getElem.mp h1 with ⟨j, hj, hje⟩
    by_cases hji : j = i
    · subst hji
      rw [← hje, ← hgc]
      simp [List.get_eq_getElem]
    · have hjlt : j < i := by omega
      have hrel := (List.pairwise_iff_getElem.mp hsorted) j i (by omega) hi hjlt
      rw [← hje, ← hgc]
      simpa [List.get_eq_getElem] using hrel

/-- Witness for C4: the good record "g" sits at index 1 of the first page;
the page is truncated after it, the older record "old" is excluded, and no
second page is requested even though the cursor was truthy. -/
theorem c4_good_truncates_witness :
    fetchLoop
        (fun _ => ⟨[⟨"n", 50⟩, ⟨"g", 40⟩, ⟨"old", 30⟩], ⟨some 29⟩⟩) "g" 4
        (some 51) [] [] =
      some ([some 51], [⟨"n", 50⟩, ⟨"g", 40⟩]) ∧
    ∀ d ∈ ([⟨"n", 50⟩, ⟨"g", 40⟩] : List Deployment), 40 ≤ d.createdAt := by
  have h := c4_good_truncates
    (fun _ => ⟨[⟨"n", 50⟩, ⟨"g", 40⟩, ⟨"old", 30⟩], ⟨some 29⟩⟩) "g" 40 3
    (some 51) [] [] 1 (by decide) (by decide) (by decide) (by decide)
    (by intro d hd; simp at hd)
  simpa using h

/-- C5 as stated is false: the second page request carries the cursor the
remote returned (`pagination.next = 7`), not "oldest timestamp seen so far
minus one" (which would be `50 - 1 = 49`). -/
theorem c5_counterexample :
    fetchLoop
        (fun u => if u = some 51 then ⟨[⟨"a", 50⟩], ⟨some 7⟩⟩
                  else ⟨[⟨"b", 5⟩], ⟨none⟩⟩) "g" 5 (some 51) [] [] =
      some ([some 51, some 7], [⟨"a", 50⟩, ⟨"b", 5⟩]) ∧
    (some 7 : Option Nat) ≠ some (50 - 1) := by
  constructor
  · rfl
  · decide

/-- C5 amended: each page request after the first carries an `until` equal
verbatim to the `pagination.next` cursor returned by the previous response
(when that cursor is truthy and the good record was not found); the client
does not itself compute an "oldest timestamp minus one" cutoff. -/
theorem c5_until_amended (f : Option Nat → DeploymentsResponse) (goodUrl : String)
    (fuel : Nat) (next : Option Nat) (reqs : List (Option Nat)) (acc : List Deployment)
    (hfind : findGoodIdx goodUrl (f (untilParam next)).deployments = none)
    (ht : truthy (f (untilParam next)).pagination.next = true) :
    fetchLoop f goodUrl (fuel + 1) next reqs acc =
      fetchLoop f goodUrl fuel (f (untilParam next)).pagination.next
        (reqs ++ [untilParam next]) (acc ++ (f (untilParam next)).deployments) ∧
    untilParam ((f (untilParam next)).pagination.next) =
      (f (untilParam next)).pagination.next := by
  refine ⟨fetchLoop_continue f goodUrl fuel next reqs acc hfind ht, ?_⟩
  have hx : ∀ x : Option Nat, truthy x = true → untilParam x = x := by
    intro x hxt
    unfold untilParam
    rw [hxt]
    simp
  exact hx _ ht

/-- Witness for the amended C5: the second request's `until` is the returned
cursor `some 7`. -/
theorem c5_until_amended_witness :
    fetchLoop
        (fun u => if u = some 51 then ⟨[⟨"a", 50⟩], ⟨some 7⟩⟩
                  else ⟨[⟨"b", 5⟩], ⟨none⟩⟩) "g" 5 (some 51) [] [] =
      fetchLoop
        (fun u => if u = some 51 then ⟨[⟨"a", 50⟩], ⟨some 7⟩⟩
                  else ⟨[⟨"b", 5⟩], ⟨none⟩⟩) "g" 4 (some 7) [some 51] [⟨"a", 50⟩] ∧
    untilParam (some 7) = some 7 := by
  have h := c5_until_amended
    (fun u => if u = some 51 then ⟨[⟨"a", 50⟩], ⟨some 7⟩⟩
              else ⟨[⟨"b", 5⟩], ⟨none⟩⟩) "g" 4 (some 51) [] []
    (by decide) (by decide)
  simpa using h

/-- C6: with the project check passing, if `bad.createdAt < good.createdAt`
the run fails with the fatal ordering error (exit status 1) and issues no
page request, and when `bad.createdAt ≥ good.createdAt` the run never
reports the ordering violation. -/
theorem c6_ordering (badD goodD : DeploymentResolve)
    (f : Option Nat → DeploymentsResponse) (verdict : Deployment → Verdict)
    (fuel : Nat) (hproj : badD.projectId = goodD.projectId) :
    (badD.createdAt < goodD.createdAt →
      runAfterResolve badD goodD f verdict fuel =
        (RunOutcome.orderingViolation, []) ∧
      runExitCode (runAfterResolve badD goodD f verdict fuel).1 = 1) ∧
    (goodD.createdAt ≤ badD.createdAt →
      (runAfterResolve badD goodD f verdict fuel).1 ≠ RunOutcome.orderingViolation) := by
  constructor
  · intro hlt
    have hrw : runAfterResolve badD goodD f verdict fuel =
        (RunOutcome.orderingViolation, []) := by
      unfold runAfterResolve
      rw [if_neg (by simp [hproj]), if_pos hlt]
    refine ⟨hrw, ?_⟩
    rw [hrw]
    rfl

  · intro hge
    unfold runAfterResolve
    rw [if_neg (by simp [hproj]), if_neg (by omega)]
    cases hfl : fetchLoop f goodD.url fuel (some (badD.createdAt + 1)) [] [] with
    | none => simp
    | some r =>
      rcases r with ⟨reqs, ds⟩
      cases ds <;> simp

/-- Witness for C6: a bad reference older than the good one is rejected
with the ordering error and an empty request list. -/
theorem c6_ordering_witness :
    runAfterResolve ⟨"bad.app", "production", 10, "p1", "o1"⟩
        ⟨"good.app", "production", 20, "p1", "o1"⟩ (fun _ => ⟨[], ⟨none⟩⟩)
        (fun _ => Verdict.good) 3 =
      (RunOutcome.orderingViolation, []) :=
  ((c6_ordering ⟨"bad.app", "production", 10, "p1", "o1"⟩
      ⟨"good.app", "production", 20, "p1", "o1"⟩ (fun _ => ⟨[], ⟨none⟩⟩)
      (fun _ => Verdict.good) 3 (by decide)).1 (by decide)).1

/-- C7 as stated is false: in an all-`skip` run the code reports the seeded
first record as "the first bad deployment" with success (exit status 0);
no `NoBadFound` condition exists in the source. -/
theorem c7_counterexample :
    runAfterResolve ⟨"bad.app", "production", 60, "p", "o"⟩
        ⟨"good.app", "production", 10, "p", "o"⟩
        (fun _ => ⟨[⟨"bad.app", 60⟩, ⟨"d1", 50⟩, ⟨"d2", 40⟩], ⟨none⟩⟩)
        (fun _ => Verdict.skip) 3 =
      (RunOutcome.success ⟨"bad.app", 60⟩, [some 61]) ∧
    runExitCode (RunOutcome.success ⟨"bad.app", 60⟩) = 0 := by
  constructor
  · rfl
  · rfl

/-- C7 amended: when the loop exhausts the window without any interior
`bad` verdict (every verdict a `skip`), the run succeeds (exit status 0)
and presents the seeded first fetched record as the first bad deployment;
it does not report any error condition. -/
theorem c7_all_skip_amended (badD goodD : DeploymentResolve)
    (f : Option Nat → DeploymentsResponse) (verdict : Deployment → Verdict)
    (fuel : Nat) (reqs : List (Option Nat)) (seed : Deployment)
    (window : List Deployment)
    (hproj : badD.projectId = goodD.projectId)
    (hord : ¬ badD.createdAt < goodD.createdAt)
    (hfetch : fetchLoop f goodD.url fuel (some (badD.createdAt + 1)) [] [] =
      some (reqs, seed :: window))
    (hskip : ∀ x ∈ window, verdict x = Verdict.skip) :
    runAfterResolve badD goodD f verdict fuel = (RunOutcome.success seed, reqs) ∧
    runExitCode (runAfterResolve badD goodD f verdict fuel).1 = 0 := by
  have hrun : runAfterResolve badD goodD f verdict fuel =
      (RunOutcome.success (bisectRun verdict window seed), reqs) := by
    unfold runAfterResolve
    rw [if_neg (by simp [hproj]), if_neg hord, hfetch]
  have hseed : bisectRun verdict window seed = seed :=
    bisectIter_all_skip verdict window.length window seed hskip
  rw [hrun, hseed]
  exact ⟨rfl, rfl⟩

/-- Witness for the amended C7: an all-`skip` run over a two-element window
reports the seed with success. -/
theorem c7_all_skip_amended_witness :
    runAfterResolve ⟨"bad.app", "production", 60, "p", "o"⟩
        ⟨"good.app", "production", 10, "p", "o"⟩
        (fun _ => ⟨[⟨"bad.app", 60⟩, ⟨"d1", 50⟩, ⟨"d2", 40⟩], ⟨none⟩⟩)
        (fun _ => Verdict.skip) 3 =
      (RunOutcome.success ⟨"bad.app", 60⟩, [some 61]) :=
  (c7_all_skip_amended ⟨"bad.app", "production", 60, "p", "o"⟩
      ⟨"good.app", "production", 10, "p", "o"⟩
      (fun _ => ⟨[⟨"bad.app", 60⟩, ⟨"d1", 50⟩, ⟨"d2", 40⟩], ⟨none⟩⟩)
      (fun _ => Verdict.skip) 3 [some 61] ⟨"bad.app", 60⟩
      [⟨"d1", 50⟩, ⟨"d2", 40⟩] (by decide) (by decide) (by rfl) (by decide)).1

/-- C8: the scripted strategy (the `--run` handler) maps exit status 0 to
`good`, 125 to `skip`, any other integer (negative and signal-derived
values included) to `bad`, and a failure to start the process to a fatal
oracle error distinct from any verdict. -/
theorem c8_exit_code_mapping :
    scriptVerdict (SpawnResult.exited 0) = Except.ok Verdict.good ∧
    scriptVerdict (SpawnResult.exited 125) = Except.ok Verdict.skip ∧
    (∀ c : Int, c ≠ 0 → c ≠ 125 →
      scriptVerdict (SpawnResult.exited c) = Except.ok Verdict.bad) ∧
    scriptVerdict SpawnResult.startFailure =
      Except.error OracleError.spawnFailure := by
  refine ⟨by simp [scriptVerdict], by simp [scriptVerdict], ?_, rfl⟩
  intro c h0 h125
  simp [scriptVerdict, h0, h125]

/-- Witness for C8: a negative exit status yields `bad`. -/
theorem c8_exit_code_mapping_witness :
    scriptVerdict (SpawnResult.exited (-3)) = Except.ok Verdict.bad :=
  c8_exit_code_mapping.2.2.1 (-3) (by decide) (by decide)

/-- C9: the seed of `lastConfirmedBad` is whatever record the fetch
returned first — no hypothesis relates it to the resolved bad reference —
and that seed is never itself tested: it is not among the deployments the
loop prompts for, and when every window verdict is `good` it is reported
as the final answer untested. -/
theorem c9_seed_unverified (badD goodD : DeploymentResolve)
    (f : Option Nat → DeploymentsResponse) (verdict : Deployment → Verdict)
    (fuel : Nat) (reqs : List (Option Nat)) (seed : Deployment)
    (window : List Deployment)
    (hproj : badD.projectId = goodD.projectId)
    (hord : ¬ badD.createdAt < goodD.createdAt)
    (hfetch : fetchLoop f goodD.url fuel (some (badD.createdAt + 1)) [] [] =
      some (reqs, seed :: window)) :
    runAfterResolve badD goodD f verdict fuel =
      (RunOutcome.success (bisectRun verdict window seed), reqs) ∧
    (seed ∉ window → seed ∉ bisectTested verdict window.length window) ∧
    ((∀ x ∈ window, verdict x = Verdict.good) →
      bisectRun verdict window seed = seed) := by
  refine ⟨?_, ?_, ?_⟩
  · unfold runAfterResolve
    rw [if_neg (by simp [hproj]), if_neg hord, hfetch]
  · intro hnot hmem
    exact hnot (bisectTested_subset verdict window.length window hmem)
  · intro hgood
    have hspine := bisectIter_spine verdict window.length [] window seed
      (by simp) (by simp) hgood
    simpa [bisectRun] using hspine

/-- Witness for C9: the newest fetched record `other` is not the resolved
bad deployment `bad.app`, yet it seeds the result and is never tested. -/
theorem c9_seed_unverified_witness :
    runAfterResolve ⟨"bad.app", "production", 60, "p", "o"⟩
        ⟨"good.app", "production", 10, "p", "o"⟩
        (fun _ => ⟨[⟨"other", 55⟩, ⟨"d1", 50⟩], ⟨none⟩⟩)
        (fun _ => Verdict.good) 3 =
      (RunOutcome.success
        (bisectRun (fun _ => Verdict.good) [⟨"d1", 50⟩] ⟨"other", 55⟩),
        [some 61]) ∧
    (⟨"other", 55⟩ : Deployment) ∉
      bisectTested (fun _ => Verdict.good) 1 [⟨"d1", 50⟩] ∧
    bisectRun (fun _ => Verdict.good) [⟨"d1", 50⟩] ⟨"other", 55⟩ =
      ⟨"other", 55⟩ := by
  have h := c9_seed_unverified ⟨"bad.app", "production", 60, "p", "o"⟩
    ⟨"good.app", "production", 10, "p", "o"⟩
    (fun _ => ⟨[⟨"other", 55⟩, ⟨"d1", 50⟩], ⟨none⟩⟩) (fun _ => Verdict.good) 3
    [some 61] ⟨"other", 55⟩ [⟨"d1", 50⟩] (by decide) (by decide) (by rfl)
  exact ⟨h.1, h.2.1 (by decide), h.2.2 (by decide)⟩

/-- C10: the fetch is bounded above by the bad reference (the initial
cursor) but not below by the good one: when the good URL appears in no
page, every record of the fetched page — however old — reaches the final
candidate list, and the loop issues another request whenever the remote
returns a truthy cursor, stopping only when it does not. -/
theorem c10_no_lower_bound (f : Option Nat → DeploymentsResponse) (goodUrl : String)
    (hgood : ∀ u, findGoodIdx goodUrl (f u).deployments = none)
    (fuel : Nat) (next : Option Nat) (reqs : List (Option Nat)) (acc : List Deployment)
    (r : List (Option Nat) × List Deployment)
    (hrun : fetchLoop f goodUrl (fuel + 1) next reqs acc = some r) :
    (∀ d ∈ acc ++ (f (untilParam next)).deployments, d ∈ r.2) ∧
    (truthy (f (untilParam next)).pagination.next = true →
      fetchLoop f goodUrl (fuel + 1) next reqs acc =
        fetchLoop f goodUrl fuel ((f (untilParam next)).pagination.next)
          (reqs ++ [untilParam next]) (acc ++ (f (untilParam next)).deployments)) := by
  constructor
  · intro d hd
    cases ht : truthy (f (untilParam next)).pagination.next with
    | true =>
      rw [fetchLoop_continue f goodUrl fuel next reqs acc (hgood _) ht] at hrun
      rcases fetchLoop_acc_prefix f goodUrl fuel _ _ _ _ hrun with ⟨tail, htail⟩
      rw [htail]
      exact List.mem_append_left _ hd
    | false =>
      rw [fetchLoop_last_page f goodUrl fuel next reqs acc (hgood _) ht] at hrun
      have hr := Option.some.inj hrun
      rw [← hr]
      exact hd
  · intro ht
    exact fetchLoop_continue f goodUrl fuel next reqs acc (hgood _) ht

/-- Witness for C10: a record far older than any good reference is kept in
the final candidate list when the good URL never appears. -/
theorem c10_no_lower_bound_witness :
    (⟨"old", 5⟩ : Deployment) ∈
      (([some 51], [⟨"old", 5⟩]) : List (Option Nat) × List Deployment).2 :=
  (c10_no_lower_bound (fun _ => ⟨[⟨"old", 5⟩], ⟨none⟩⟩) "g" (fun _ => rfl) 0
      (some 51) [] [] ([some 51], [⟨"old", 5⟩]) rfl).1 ⟨"old", 5⟩ (by simp)

/-- C3: every step on a non-empty window strictly shrinks it; a `skip`
verdict shrinks it by exactly 1, a `good` or `bad` verdict by at least
`ceil(n / 2)`; consequently at most `n` iterations empty the window, so the
loop terminates. -/
theorem c3_termination (verdict : Deployment → Verdict) (ds : List Deployment)
    (lastBad : Deployment) (hm : ds.length / 2 < ds.length) :
    (bisectStep verdict (ds, lastBad)).1.length < ds.length ∧
    (verdict (ds.get ⟨ds.length / 2, hm⟩) = Verdict.skip →
      (bisectStep verdict (ds, lastBad)).1.length = ds.length - 1) ∧
    (verdict (ds.get ⟨ds.length / 2, hm⟩) ≠ Verdict.skip →
      (bisectStep verdict (ds, lastBad)).1.length + (ds.length + 1) / 2 ≤ ds.length) ∧
    (bisectIter verdict ds.length (ds, lastBad)).1 = [] := by
  refine ⟨?_, ?_, ?_, ?_⟩
  · cases ds with
    | nil => simp at hm
    | cons d t => exact bisectStep_fst_length_lt verdict d t lastBad
  · intro hv
    rw [bisectStep_skip verdict ds lastBad hm hv]
    simp only [List.length_append, List.length_take, List.length_drop]
    omega
  · intro hv
    cases hv2 : verdict (ds.get ⟨ds.length / 2, hm⟩) with
    | good =>
      rw [bisectStep_good verdict ds lastBad hm hv2]
      simp only [List.length_take]
      omega
    | bad =>
      rw [bisectStep_bad verdict ds lastBad hm hv2]
      simp only [List.length_drop]
      omega
    | skip => exact absurd hv2 hv
  · exact bisectIter_fst_eq_nil verdict ds.length ds lastBad (Nat.le_refl _)

/-- Witness for C3: a two-element window under an all-`skip` oracle shrinks
by exactly one, and two iterations empty it. -/
theorem c3_termination_witness :
    (bisectStep (fun _ => Verdict.skip)
        ([⟨"d0", 30⟩, ⟨"d1", 20⟩], ⟨"s", 40⟩)).1.length = 2 - 1 ∧
    (bisectIter (fun _ => Verdict.skip) 2 ([⟨"d0", 30⟩, ⟨"d1", 20⟩], ⟨"s", 40⟩)).1 = [] :=
  ⟨(c3_termination (fun _ => Verdict.skip) [⟨"d0", 30⟩, ⟨"d1", 20⟩] ⟨"s", 40⟩
      (by decide)).2.1 (by decide),
   (c3_termination (fun _ => Verdict.skip) [⟨"d0", 30⟩, ⟨"d1", 20⟩] ⟨"s", 40⟩
      (by decide)).2.2.2⟩
